import Mathlib

/-!
# Verification of the bounded TTL cache design of `nodejs-process`

This file gives a shallow embedding of the cache code sketched in
`src/memory-leak-example.md` ("How to Fix Memory Leaks"), of the actual
leaky cache in `src/memory-leak-example.js`, and of the routed HTTP
server (`src/unnamed/part_001`), together with theorems settling the
specification's claims about them.

JavaScript `Map` objects preserve insertion order: `set` on a present
key updates the entry in place (keeping its position), `set` on an
absent key appends at the back, `delete` removes the single entry with
that key, and `keys().next().value` is the key of the oldest entry.
We model a `Map` as a `List (κ × α)` with exactly these operations.
-/

set_option autoImplicit false
set_option linter.unusedSectionVars false

universe u v

variable {κ : Type u} {α : Type v} [DecidableEq κ]

/-- The keys of a JS `Map`, in insertion order. -/
def jsKeys (m : List (κ × α)) : List κ :=
  m.map Prod.fst

/-- `Map.prototype.get`: the value stored under `k`, if any. -/
def jsMapGet : List (κ × α) → κ → Option α
  | [], _ => none
  | (k', v) :: rest, k => if k' = k then some v else jsMapGet rest k

/-- `Map.prototype.set`: updates the entry for `k` in place if present
(keeping its position in insertion order), otherwise appends it at the
back. -/
def jsMapSet : List (κ × α) → κ → α → List (κ × α)
  | [], k, v => [(k, v)]
  | (k', v') :: rest, k, v =>
      if k' = k then (k, v) :: rest else (k', v') :: jsMapSet rest k v

/-- `Map.prototype.delete`: removes the entry for `k` (the first one,
which is the only one when keys are unique). -/
def jsMapDelete : List (κ × α) → κ → List (κ × α)
  | [], _ => []
  | (k', v) :: rest, k =>
      if k' = k then rest else (k', v) :: jsMapDelete rest k

/-- `map.keys().next().value`: the key of the oldest entry. -/
def jsFirstKey (m : List (κ × α)) : Option κ :=
  (jsKeys m).head?

/-- `Map.prototype.clear`: removes all entries. -/
def jsMapClear (_m : List (κ × α)) : List (κ × α) :=
  []

/-!
## The bounded TTL cache

`src/memory-leak-example.md` ("How to Fix Memory Leaks") sketches the
fixed cache: `addToCache` (lines 105-112) evicts the oldest entry when
`leakyCache.size >= MAX_CACHE_SIZE` before setting the new one, and
`addToCacheWithTTL` (lines 123-128) stores `{ value, expires: Date.now()
+ ttlMs }`.  The specification's `Put` combines the two; `Sweep` is the
cleanup interval of lines 131-138, which deletes every entry with
`entry.expires < now`.  Times are modelled as naturals.
-/

/-- An entry of the TTL cache: the stored value and the absolute
expiration time, as written by `addToCacheWithTTL`
(`{ value, expires: Date.now() + ttlMs }`). -/
structure Entry where
  value : Nat
  expires : Nat
deriving DecidableEq, Repr

/-- The cache: a JS `Map` from string keys to entries, in insertion
order. -/
abbrev Cache := List (String × Entry)

/-- `Size()`: the entry count (`leakyCache.size`). -/
def size (m : Cache) : Nat :=
  m.length

/-- The capacity branch of `addToCache`: when
`leakyCache.size >= MAX_CACHE_SIZE`, delete the oldest key
(`leakyCache.keys().next().value`); on an empty map that key is
`undefined` and the delete is a no-op. -/
def putEvict (cap : Nat) (m : Cache) : Cache :=
  if cap ≤ m.length then
    match jsFirstKey m with
    | some ok => jsMapDelete m ok
    | none => m
  else m

/-- `Put(key, value, ttl)` at time `now`: the capacity check of
`addToCache` (`src/memory-leak-example.md` lines 105-112), then the
write of `addToCacheWithTTL` (`leakyCache.set(key, { value, expires:
now + ttl })`, lines 123-128).  The combination of the two sketches
into one operation is the specification's Put. -/
def put (cap now ttl : Nat) (m : Cache) (k : String) (v : Nat) : Cache :=
  jsMapSet (putEvict cap m) k ⟨v, now + ttl⟩

/-- Modelled from the spec: `Get(key)` is not implemented anywhere in
the repository (the md sketches only writes).  Per the spec, Get
returns "not found" (`none`) if the key is absent or its expiration
has passed (`now >= expiration`), and on such a lazy expiration hit it
removes the entry as a side effect; otherwise it returns the stored
value and leaves the cache unchanged. -/
def Get (now : Nat) (m : Cache) (k : String) : Option Nat × Cache :=
  match jsMapGet m k with
  | none => (none, m)
  | some e => if e.expires ≤ now then (none, jsMapDelete m k) else (some e.value, m)

/-- `Sweep()` at time `now`: the cleanup interval of
`src/memory-leak-example.md` lines 131-138 — for each entry, delete it
when `entry.expires < now`. -/
def sweep (now : Nat) (m : Cache) : Cache :=
  m.filter (fun p => !decide (p.2.expires < now))

/-- `Clear()`: `leakyCache.clear()` removes all entries
(`src/memory-leak-example.js` line 78). -/
def clear (m : Cache) : Cache :=
  jsMapClear m

/-- One recorded `Put` call: its key, value, call time and ttl. -/
structure PutOp where
  key : String
  value : Nat
  now : Nat
  ttl : Nat
deriving DecidableEq, Repr

/-- Run a sequence of `Put` calls against a cache of capacity `cap`,
starting from the empty cache. -/
def runPuts (cap : Nat) (ops : List PutOp) : Cache :=
  ops.foldl (fun m op => put cap op.now op.ttl m op.key op.value) []

/-!
## The shipped leaky cache (`src/memory-leak-example.js`)

`leakyCache` is a JS `Map` keyed by `Date.now()` milliseconds.
`createMemoryLeak` builds a data record and stores it under the
current millisecond; the request handler calls it on `/leak` and
touches the cache on no other route; the SIGINT handler calls
`leakyCache.clear()`.
-/

/-- The record stored by `createMemoryLeak`: an ISO timestamp, a 1MB
string of `x`s, and a random string repeated 1000 times. -/
structure LeakData where
  timestamp : String
  largeString : String
  randomData : String
deriving DecidableEq, Repr

/-- The data record built at the top of `createMemoryLeak` from the
current ISO timestamp and the random fragment
(`Math.random().toString(36)`). -/
def mkLeakData (iso rand : String) : LeakData :=
  { timestamp := iso
    largeString := String.mk (List.replicate (1024 * 1024) 'x')
    randomData := String.join (List.replicate 1000 rand) }

/-- The leaky cache: a JS `Map` from `Date.now()` keys to data
records. -/
abbrev LeakyCache := List (Nat × LeakData)

/-- `createMemoryLeak` (`src/memory-leak-example.js` lines 7-19):
`leakyCache.set(Date.now(), data)` with no cleanup. -/
def createMemoryLeak (nowMs : Nat) (d : LeakData) (m : LeakyCache) : LeakyCache :=
  jsMapSet m nowMs d

/-- The cache effect of the request handler of
`src/memory-leak-example.js` (lines 22-51): `/leak` calls
`createMemoryLeak`; `/status` and the 404 branch do not touch the
cache. -/
def leakServerHandler (url : String) (nowMs : Nat) (d : LeakData)
    (m : LeakyCache) : LeakyCache :=
  if url = "/leak" then createMemoryLeak nowMs d m else m

/-- The SIGINT handler (`src/memory-leak-example.js` lines 76-80):
`leakyCache.clear()` before exiting. -/
def sigintHandler (m : LeakyCache) : LeakyCache :=
  jsMapClear m

/-!
## The routed HTTP server (`src/unnamed/part_001`)

The request handler sets four headers, switches on `req.url` over
`'/'`, `'/about'` and `'/api/status'` (each a 200 with a JSON object
body) and defaults to a 404 whose body is
`{ error: 'Not Found', message: 'The requested resource was not found' }`.
The dynamic values — `new Date().toISOString()`, the version string,
and `process.uptime()` — enter as parameters; the numeric uptime
payload is kept opaque in the type parameter `υ`.
-/

/-- A JSON field value of the routed server's response bodies: a
string literal or a number (the uptime), whose payload type is kept
opaque. -/
inductive JVal (υ : Type) where
  | jstr : String → JVal υ
  | jnum : υ → JVal υ
deriving DecidableEq, Repr

/-- A response of the routed server: status code, headers, and the
JSON object body as an ordered field list. -/
structure RoutedResponse (υ : Type) where
  statusCode : Nat
  headers : List (String × String)
  body : List (String × JVal υ)
deriving DecidableEq, Repr

/-- The headers set at the top of the handler before routing. -/
def routedHeaders : List (String × String) :=
  [("Content-Type", "application/json"),
   ("X-Content-Type-Options", "nosniff"),
   ("X-Frame-Options", "DENY"),
   ("X-XSS-Protection", "1; mode=block")]

/-- The request handler of `src/unnamed/part_001` (lines 4-57):
header setup, then the `switch (req.url)`.  `ts` stands for
`new Date().toISOString()` and `uptime` for `process.uptime()`.  The
`catch` branch (500) is unreachable in this embedding because every
routed branch is a total function. -/
def routedHandler {υ : Type} (url ts : String) (uptime : υ) : RoutedResponse υ :=
  if url = "/" then
    { statusCode := 200
      headers := routedHeaders
      body := [("message", JVal.jstr "Welcome to the homepage"),
               ("timestamp", JVal.jstr ts)] }
  else if url = "/about" then
    { statusCode := 200
      headers := routedHeaders
      body := [("message", JVal.jstr "About page"),
               ("version", JVal.jstr "1.0.0")] }
  else if url = "/api/status" then
    { statusCode := 200
      headers := routedHeaders
      body := [("status", JVal.jstr "operational"),
               ("uptime", JVal.jnum uptime),
               ("timestamp", JVal.jstr ts)] }
  else
    { statusCode := 404
      headers := routedHeaders
      body := [("error", JVal.jstr "Not Found"),
               ("message", JVal.jstr "The requested resource was not found")] }

/-!
## Lemmas about the JS Map operations
-/

theorem jsKeys_nil : jsKeys ([] : List (κ × α)) = [] :=
  rfl

theorem jsKeys_cons (p : κ × α) (rest : List (κ × α)) :
    jsKeys (p :: rest) = p.1 :: jsKeys rest :=
  rfl

theorem jsMapGet_eq_none_iff (m : List (κ × α)) (k : κ) :
    jsMapGet m k = none ↔ k ∉ jsKeys m := by
  induction m with
  | nil => simp [jsMapGet, jsKeys_nil]
  | cons p rest ih =>
      obtain ⟨k', v⟩ := p
      by_cases h : k' = k
      · subst h
        simp [jsMapGet, jsKeys_cons]
      · have h2 : ¬k = k' := fun hh => h hh.symm
        simp [jsMapGet, jsKeys_cons, h, h2, ih]

theorem jsMapGet_set_self (m : List (κ × α)) (k : κ) (v : α) :
    jsMapGet (jsMapSet m k v) k = some v := by
  induction m with
  | nil => simp [jsMapSet, jsMapGet]
  | cons p rest ih =>
      obtain ⟨k', v'⟩ := p
      by_cases h : k' = k <;> simp [jsMapSet, jsMapGet, h, ih]

theorem jsMapGet_set_ne (m : List (κ × α)) (k k' : κ) (v : α) (h : k' ≠ k) :
    jsMapGet (jsMapSet m k v) k' = jsMapGet m k' := by
  induction m with
  | nil => simp [jsMapSet, jsMapGet, Ne.symm h]
  | cons p rest ih =>
      obtain ⟨k₁, v₁⟩ := p
      by_cases h1 : k₁ = k
      · subst h1
        simp [jsMapSet, jsMapGet, Ne.symm h]
      · simp [jsMapSet, jsMapGet, h1, ih]

theorem jsMapGet_delete_ne (m : List (κ × α)) (k k' : κ) (h : k' ≠ k) :
    jsMapGet (jsMapDelete m k) k' = jsMapGet m k' := by
  induction m with
  | nil => simp [jsMapDelete]
  | cons p rest ih =>
      obtain ⟨k₁, v₁⟩ := p
      by_cases h1 : k₁ = k
      · subst h1
        simp [jsMapDelete, jsMapGet, Ne.symm h]
      · simp [jsMapDelete, jsMapGet, h1, ih]

theorem jsKeys_delete_sublist (m : List (κ × α)) (k : κ) :
    (jsKeys (jsMapDelete m k)).Sublist (jsKeys m) := by
  induction m with
  | nil => simp [jsMapDelete]
  | cons p rest ih =>
      obtain ⟨k₁, v₁⟩ := p
      by_cases h1 : k₁ = k
      · have hd : jsMapDelete ((k₁, v₁) :: rest) k = rest := by
          simp [jsMapDelete, h1]
        rw [hd]
        exact List.sublist_cons_self _ _
      · have hd : jsMapDelete ((k₁, v₁) :: rest) k =
            (k₁, v₁) :: jsMapDelete rest k := by
          simp [jsMapDelete, h1]
        rw [hd, jsKeys_cons, jsKeys_cons]
        exact ih.cons₂ _

theorem jsMapGet_delete_self (m : List (κ × α)) (k : κ)
    (hnd : (jsKeys m).Nodup) : jsMapGet (jsMapDelete m k) k = none := by
  induction m with
  | nil => simp [jsMapDelete, jsMapGet]
  | cons p rest ih =>
      obtain ⟨k₁, v₁⟩ := p
      rw [jsKeys_cons, List.nodup_cons] at hnd
      by_cases h1 : k₁ = k
      · subst h1
        rw [jsMapGet_eq_none_iff]
        simpa [jsMapDelete] using hnd.1
      · simp [jsMapDelete, jsMapGet, h1, ih hnd.2]

theorem length_jsMapSet_of_absent (m : List (κ × α)) (k : κ) (v : α)
    (h : jsMapGet m k = none) :
    (jsMapSet m k v).length = m.length + 1 := by
  induction m with
  | nil => simp [jsMapSet]
  | cons p rest ih =>
      obtain ⟨k₁, v₁⟩ := p
      by_cases h1 : k₁ = k
      · simp [jsMapGet, h1] at h
      · simp only [jsMapGet, h1, if_false] at h
        simp [jsMapSet, h1, ih h]

theorem length_jsMapSet_of_present (m : List (κ × α)) (k : κ) (v w : α)
    (h : jsMapGet m k = some w) :
    (jsMapSet m k v).length = m.length := by
  induction m with
  | nil => simp [jsMapGet] at h
  | cons p rest ih =>
      obtain ⟨k₁, v₁⟩ := p
      by_cases h1 : k₁ = k
      · simp [jsMapSet, h1]
      · simp only [jsMapGet, h1, if_false] at h
        simp [jsMapSet, h1, ih h]

theorem length_jsMapSet_le (m : List (κ × α)) (k : κ) (v : α) :
    (jsMapSet m k v).length ≤ m.length + 1 := by
  cases h : jsMapGet m k with
  | none => exact (length_jsMapSet_of_absent m k v h).le
  | some w => rw [length_jsMapSet_of_present m k v w h]; omega

theorem length_jsMapDelete_of_mem (m : List (κ × α)) (k : κ)
    (h : k ∈ jsKeys m) :
    (jsMapDelete m k).length + 1 = m.length := by
  induction m with
  | nil => simp [jsKeys] at h
  | cons p rest ih =>
      obtain ⟨k₁, v₁⟩ := p
      by_cases h1 : k₁ = k
      · simp [jsMapDelete, h1]
      · simp only [jsKeys, List.map_cons, List.mem_cons] at h
        rcases h with h | h
        · exact absurd h.symm h1
        · simp [jsMapDelete, h1, ih h]

theorem jsKeys_set_of_present (m : List (κ × α)) (k : κ) (v w : α)
    (h : jsMapGet m k = some w) :
    jsKeys (jsMapSet m k v) = jsKeys m := by
  induction m with
  | nil => simp [jsMapGet] at h
  | cons p rest ih =>
      obtain ⟨k₁, v₁⟩ := p
      by_cases h1 : k₁ = k
      · simp [jsMapSet, jsKeys_cons, h1]
      · simp only [jsMapGet, h1, if_false] at h
        simp [jsMapSet, jsKeys_cons, h1, ih h]

theorem jsKeys_set_of_absent (m : List (κ × α)) (k : κ) (v : α)
    (h : jsMapGet m k = none) :
    jsKeys (jsMapSet m k v) = jsKeys m ++ [k] := by
  induction m with
  | nil => simp [jsMapSet, jsKeys_nil, jsKeys_cons]
  | cons p rest ih =>
      obtain ⟨k₁, v₁⟩ := p
      by_cases h1 : k₁ = k
      · simp [jsMapGet, h1] at h
      · simp only [jsMapGet, h1, if_false] at h
        simp [jsMapSet, jsKeys_cons, h1, ih h]

theorem jsKeys_set_nodup (m : List (κ × α)) (k : κ) (v : α)
    (hnd : (jsKeys m).Nodup) : (jsKeys (jsMapSet m k v)).Nodup := by
  cases h : jsMapGet m k with
  | none =>
      rw [jsKeys_set_of_absent m k v h]
      refine List.Nodup.append hnd (List.nodup_singleton k) ?_
      intro a ha hb
      simp only [List.mem_singleton] at hb
      subst hb
      exact (jsMapGet_eq_none_iff m a).mp h ha
  | some w =>
      rw [jsKeys_set_of_present m k v w h]
      exact hnd

theorem jsKeys_delete_nodup (m : List (κ × α)) (k : κ)
    (hnd : (jsKeys m).Nodup) : (jsKeys (jsMapDelete m k)).Nodup :=
  (jsKeys_delete_sublist m k).nodup hnd

theorem mem_jsMapSet_of_ne (m : List (κ × α)) (k k' : κ) (v e : α)
    (hmem : (k', e) ∈ m) (hne : k' ≠ k) : (k', e) ∈ jsMapSet m k v := by
  induction m with
  | nil => simp at hmem
  | cons p rest ih =>
      obtain ⟨k₁, v₁⟩ := p
      by_cases h1 : k₁ = k
      · have hs : jsMapSet ((k₁, v₁) :: rest) k v = (k, v) :: rest := by
          simp [jsMapSet, h1]
        rw [hs]
        rcases List.mem_cons.mp hmem with h | h
        · rw [Prod.mk.injEq] at h
          exact absurd (h.1.trans h1) hne
        · exact List.mem_cons_of_mem _ h
      · have hs : jsMapSet ((k₁, v₁) :: rest) k v =
            (k₁, v₁) :: jsMapSet rest k v := by
          simp [jsMapSet, h1]
        rw [hs]
        rcases List.mem_cons.mp hmem with h | h
        · exact List.mem_cons.mpr (Or.inl h)
        · exact List.mem_cons_of_mem _ (ih h)

theorem mem_jsMapDelete_of_ne (m : List (κ × α)) (k k' : κ) (e : α)
    (hmem : (k', e) ∈ m) (hne : k' ≠ k) : (k', e) ∈ jsMapDelete m k := by
  induction m with
  | nil => simp at hmem
  | cons p rest ih =>
      obtain ⟨k₁, v₁⟩ := p
      by_cases h1 : k₁ = k
      · have hd : jsMapDelete ((k₁, v₁) :: rest) k = rest := by
          simp [jsMapDelete, h1]
        rw [hd]
        rcases List.mem_cons.mp hmem with h | h
        · rw [Prod.mk.injEq] at h
          exact absurd (h.1.trans h1) hne
        · exact h
      · have hd : jsMapDelete ((k₁, v₁) :: rest) k =
            (k₁, v₁) :: jsMapDelete rest k := by
          simp [jsMapDelete, h1]
        rw [hd]
        rcases List.mem_cons.mp hmem with h | h
        · exact List.mem_cons.mpr (Or.inl h)
        · exact List.mem_cons_of_mem _ (ih h)

theorem jsMapGet_of_mem_nodup (m : List (κ × α)) (k : κ) (e : α)
    (hnd : (jsKeys m).Nodup) (hmem : (k, e) ∈ m) : jsMapGet m k = some e := by
  induction m with
  | nil => simp at hmem
  | cons p rest ih =>
      obtain ⟨k₁, v₁⟩ := p
      rw [jsKeys_cons, List.nodup_cons] at hnd
      rcases List.mem_cons.mp hmem with h | h
      · rw [Prod.mk.injEq] at h
        simp [jsMapGet, h.1, h.2]
      · have hne : k₁ ≠ k := by
          intro hk
          subst hk
          exact hnd.1 (by simpa [jsKeys] using List.mem_map_of_mem Prod.fst h)
        simp [jsMapGet, hne, ih hnd.2 h]

theorem jsFirstKey_mem (m : List (κ × α)) (k : κ)
    (h : jsFirstKey m = some k) : k ∈ jsKeys m := by
  cases m with
  | nil => simp [jsFirstKey, jsKeys_nil] at h
  | cons p rest =>
      rw [jsFirstKey, jsKeys_cons, List.head?_cons, Option.some.injEq] at h
      rw [jsKeys_cons, ← h]
      exact List.mem_cons_self _ _

/-!
## Helper lemmas about the cache operations
-/

theorem length_jsMapSet_ge (m : List (κ × α)) (k : κ) (v : α) :
    m.length ≤ (jsMapSet m k v).length := by
  cases h : jsMapGet m k with
  | none => rw [length_jsMapSet_of_absent m k v h]; omega
  | some w => rw [length_jsMapSet_of_present m k v w h]

theorem jsMapGet_put_self (cap now ttl : Nat) (m : Cache) (k : String) (v : Nat) :
    jsMapGet (put cap now ttl m k v) k = some ⟨v, now + ttl⟩ :=
  jsMapGet_set_self (putEvict cap m) k ⟨v, now + ttl⟩

theorem jsKeys_putEvict_nodup (cap : Nat) (m : Cache)
    (hnd : (jsKeys m).Nodup) : (jsKeys (putEvict cap m)).Nodup := by
  unfold putEvict
  by_cases hc : cap ≤ m.length
  · simp only [hc, if_true]
    cases hfk : jsFirstKey m with
    | none => exact hnd
    | some ok => exact jsKeys_delete_nodup m ok hnd
  · simp only [hc, if_false]
    exact hnd

theorem jsKeys_put_nodup (cap now ttl : Nat) (m : Cache) (k : String) (v : Nat)
    (hnd : (jsKeys m).Nodup) : (jsKeys (put cap now ttl m k v)).Nodup :=
  jsKeys_set_nodup _ _ _ (jsKeys_putEvict_nodup cap m hnd)

theorem size_put_le (cap now ttl : Nat) (m : Cache) (k : String) (v : Nat)
    (hcap : 1 ≤ cap) (hm : size m ≤ cap) :
    size (put cap now ttl m k v) ≤ cap := by
  by_cases hc : cap ≤ m.length
  · cases m with
    | nil =>
        simp only [List.length_nil, Nat.le_zero] at hc
        omega
    | cons p rest =>
        have hfk : jsFirstKey (p :: rest) = some p.1 := rfl
        have hmem : p.1 ∈ jsKeys (p :: rest) := jsFirstKey_mem _ _ hfk
        have hdel := length_jsMapDelete_of_mem (p :: rest) p.1 hmem
        have hset := length_jsMapSet_le (jsMapDelete (p :: rest) p.1) k
          (⟨v, now + ttl⟩ : Entry)
        have hput : put cap now ttl (p :: rest) k v =
            jsMapSet (jsMapDelete (p :: rest) p.1) k ⟨v, now + ttl⟩ := by
          rw [put, putEvict, if_pos hc, hfk]
        rw [hput]
        simp only [size] at hm ⊢
        omega
  · push_neg at hc
    have hput : put cap now ttl m k v = jsMapSet m k ⟨v, now + ttl⟩ := by
      rw [put, putEvict, if_neg (by omega)]
    rw [hput]
    have hset := length_jsMapSet_le m k (⟨v, now + ttl⟩ : Entry)
    simp only [size] at hm ⊢
    omega

theorem size_runPuts_le (cap : Nat) (hcap : 1 ≤ cap) (ops : List PutOp) :
    size (runPuts cap ops) ≤ cap := by
  suffices h : ∀ m : Cache, size m ≤ cap →
      size (ops.foldl (fun m op => put cap op.now op.ttl m op.key op.value) m) ≤ cap by
    exact h [] (by simp [size])
  induction ops with
  | nil =>
      intro m hm
      simpa using hm
  | cons op rest ih =>
      intro m hm
      exact ih _ (size_put_le cap op.now op.ttl m op.key op.value hcap hm)

theorem mem_put_of_ne (cap now ttl : Nat) (m : Cache) (k k' : String)
    (v : Nat) (e : Entry) (hmem : (k', e) ∈ m) (hne : k' ≠ k)
    (hsafe : size m < cap ∨ jsFirstKey m ≠ some k') :
    (k', e) ∈ put cap now ttl m k v := by
  have hstep : (k', e) ∈ putEvict cap m := by
    unfold putEvict
    by_cases hc : cap ≤ m.length
    · simp only [hc, if_true]
      cases hfk : jsFirstKey m with
      | none => exact hmem
      | some ok =>
          have hok : k' ≠ ok := by
            rcases hsafe with hlt | hfk'
            · exact absurd hlt (by simp only [size]; omega)
            · intro hkk
              exact hfk' (hkk ▸ hfk)
          exact mem_jsMapDelete_of_ne m ok k' e hmem hok
    · simp only [hc, if_false]
      exact hmem
  exact mem_jsMapSet_of_ne _ k k' _ e hstep hne

/-!
## Claim theorems
-/

/-- C1, counterexample: with capacity 0, a single Put leaves one entry
in the cache, so `Size() <= capacity` fails — `addToCache` evicts only
one entry before unconditionally inserting. -/
theorem C1_cap_zero_counterexample :
    size (runPuts 0 [⟨"a", 1, 0, 10⟩]) = 1 ∧
    ¬ size (runPuts 0 [⟨"a", 1, 0, 10⟩]) ≤ 0 := by
  decide

/-- C1 (amended): for every capacity of at least 1 and every sequence
of Put calls — including sequences longer than the capacity — the
entry count satisfies `Size() <= capacity` after each call (each
prefix of calls is itself such a sequence). -/
theorem C1_size_le_capacity (cap : Nat) (ops : List PutOp) (hcap : 1 ≤ cap) :
    size (runPuts cap ops) ≤ cap :=
  size_runPuts_le cap hcap ops

/-- C1 witness: three Puts into a cache of capacity 2 leave at most 2
entries. -/
theorem C1_size_le_capacity_witness :
    1 ≤ 2 ∧
      size (runPuts 2 [⟨"a", 1, 0, 5⟩, ⟨"b", 2, 1, 5⟩, ⟨"c", 3, 2, 5⟩]) ≤ 2 :=
  ⟨by decide, C1_size_le_capacity 2 [⟨"a", 1, 0, 5⟩, ⟨"b", 2, 1, 5⟩, ⟨"c", 3, 2, 5⟩]
    (by decide)⟩

/-- C2: after `Put(k, v, ttl)` at time `now` (expiration `now + ttl`),
Get at any time strictly before the expiration returns the stored
value and leaves the cache unchanged; Get at any time at or after the
expiration returns "not found" and removes the entry as a side
effect, with no Sweep in between. -/
theorem C2_ttl_get (cap now ttl t1 t2 : Nat) (m : Cache) (k : String) (v : Nat)
    (hnd : (jsKeys m).Nodup) :
    (t1 < now + ttl →
      Get t1 (put cap now ttl m k v) k =
        (some v, put cap now ttl m k v)) ∧
    (now + ttl ≤ t2 →
      (Get t2 (put cap now ttl m k v) k).1 = none ∧
      jsMapGet (Get t2 (put cap now ttl m k v) k).2 k = none) := by
  have hget := jsMapGet_put_self cap now ttl m k v
  constructor
  · intro h1
    have hne : ¬ (now + ttl ≤ t1) := by omega
    simp [Get, hget, hne]
  · intro h2
    have hnd' : (jsKeys (put cap now ttl m k v)).Nodup :=
      jsKeys_put_nodup cap now ttl m k v hnd
    constructor
    · simp [Get, hget, h2]
    · have hdel : (Get t2 (put cap now ttl m k v) k).2 =
          jsMapDelete (put cap now ttl m k v) k := by
        simp [Get, hget, h2]
      rw [hdel]
      exact jsMapGet_delete_self _ k hnd'

/-- C2 witness: `Put("x", 1, ttl 10)` at time 0; `Get("x")` at time 9
returns 1, and at time 11 returns "not found" and deletes the
entry. -/
theorem C2_ttl_get_witness :
    (Get 9 (put 1000 0 10 [] "x" 1) "x" =
      (some 1, put 1000 0 10 [] "x" 1)) ∧
    ((Get 11 (put 1000 0 10 [] "x" 1) "x").1 = none ∧
      jsMapGet (Get 11 (put 1000 0 10 [] "x" 1) "x").2 "x" = none) :=
  ⟨(C2_ttl_get 1000 0 10 9 11 [] "x" 1 (by decide)).1 (by decide),
   (C2_ttl_get 1000 0 10 9 11 [] "x" 1 (by decide)).2 (by decide)⟩

/-- C3: when the entry count equals the capacity and a new key is
inserted, exactly the single oldest entry (the front of the insertion
order) is evicted: afterwards the oldest key reads "not found", the
new key holds the new entry, every other entry survives, and the size
is again the capacity. -/
theorem C3_eviction_order (cap now ttl : Nat) (m : Cache) (k ok : String)
    (v : Nat) (hnd : (jsKeys m).Nodup) (hlen : size m = cap)
    (hfk : jsFirstKey m = some ok) (hnew : jsMapGet m k = none) :
    jsMapGet (put cap now ttl m k v) ok = none ∧
    jsMapGet (put cap now ttl m k v) k = some ⟨v, now + ttl⟩ ∧
    (∀ k' e, (k', e) ∈ m → k' ≠ ok → k' ≠ k → (k', e) ∈ put cap now ttl m k v) ∧
    size (put cap now ttl m k v) = cap := by
  have hokmem : ok ∈ jsKeys m := jsFirstKey_mem m ok hfk
  have hok : ok ≠ k := by
    intro hkk
    exact (jsMapGet_eq_none_iff m k).mp hnew (hkk ▸ hokmem)
  have hc : cap ≤ m.length := by
    simp only [size] at hlen
    omega
  have hev : putEvict cap m = jsMapDelete m ok := by
    rw [putEvict, if_pos hc, hfk]
  have hput : put cap now ttl m k v =
      jsMapSet (jsMapDelete m ok) k ⟨v, now + ttl⟩ := by
    rw [put, hev]
  refine ⟨?_, ?_, ?_, ?_⟩
  · rw [hput, jsMapGet_set_ne _ k ok _ hok]
    exact jsMapGet_delete_self m ok hnd
  · rw [hput]
    exact jsMapGet_set_self _ _ _
  · intro k' e hmem hne1 hne2
    rw [hput]
    exact mem_jsMapSet_of_ne _ k k' _ e (mem_jsMapDelete_of_ne m ok k' e hmem hne1) hne2
  · have hdel := length_jsMapDelete_of_mem m ok hokmem
    have habs : jsMapGet (jsMapDelete m ok) k = none := by
      rw [jsMapGet_delete_ne m ok k (Ne.symm hok)]
      exact hnew
    have hset := length_jsMapSet_of_absent (jsMapDelete m ok) k
      (⟨v, now + ttl⟩ : Entry) habs
    rw [hput]
    simp only [size] at hlen ⊢
    omega

/-- C3 witness: capacity 2, Puts of A, B, C in order — A is evicted,
B and C survive, and the size stays 2. -/
theorem C3_eviction_order_witness :
    jsMapGet (put 2 0 100 [("A", ⟨1, 100⟩), ("B", ⟨2, 100⟩)] "C" 3) "A" = none ∧
    jsMapGet (put 2 0 100 [("A", ⟨1, 100⟩), ("B", ⟨2, 100⟩)] "C" 3) "C" =
      some ⟨3, 100⟩ ∧
    ("B", (⟨2, 100⟩ : Entry)) ∈ put 2 0 100 [("A", ⟨1, 100⟩), ("B", ⟨2, 100⟩)] "C" 3 ∧
    size (put 2 0 100 [("A", ⟨1, 100⟩), ("B", ⟨2, 100⟩)] "C" 3) = 2 := by
  have h := C3_eviction_order 2 0 100 [("A", ⟨1, 100⟩), ("B", ⟨2, 100⟩)] "C" "A" 3
    (by decide) (by decide) (by decide) (by decide)
  exact ⟨h.1, h.2.1, h.2.2.1 "B" ⟨2, 100⟩ (by decide) (by decide) (by decide), h.2.2.2⟩

/-- C4, counterexample: the cleanup interval deletes only entries with
`entry.expires < now`, so after a Sweep at time 5 an entry whose
expiration is exactly 5 remains in the cache even though its
expiration has passed in the `expiration <= now` sense. -/
theorem C4_sweep_boundary_counterexample :
    sweep 5 [("a", ⟨1, 5⟩)] = [("a", ⟨1, 5⟩)] ∧
    ("a", (⟨1, 5⟩ : Entry)) ∈ sweep 5 [("a", ⟨1, 5⟩)] ∧
    (⟨1, 5⟩ : Entry).expires ≤ 5 := by
  decide

/-- C4 (amended): immediately after `Sweep()` at time `now`, no
remaining entry has `expiration < now`, and conversely every entry
whose expiration has not strictly passed survives the Sweep,
independent of any Get calls; an entry with expiration exactly `now`
is kept by Sweep. -/
theorem C4_sweep_removes_expired (now : Nat) (m : Cache) :
    (∀ k e, (k, e) ∈ sweep now m → now ≤ e.expires) ∧
    (∀ k e, (k, e) ∈ m → now ≤ e.expires → (k, e) ∈ sweep now m) := by
  constructor
  · intro k e hmem
    rw [sweep, List.mem_filter] at hmem
    have := hmem.2
    simp only [Bool.not_eq_eq_eq_not, Bool.not_true, decide_eq_false_iff_not] at this
    omega
  · intro k e hmem hexp
    rw [sweep, List.mem_filter]
    refine ⟨hmem, ?_⟩
    simp only [Bool.not_eq_eq_eq_not, Bool.not_true, decide_eq_false_iff_not]
    omega

/-- C4 witness: sweeping at time 6 keeps an entry expiring at 7, and
an entry expiring at 7 with `6 <= 7` indeed survives. -/
theorem C4_sweep_removes_expired_witness :
    6 ≤ (⟨1, 7⟩ : Entry).expires ∧
    ("a", (⟨1, 7⟩ : Entry)) ∈ sweep 6 [("a", ⟨1, 7⟩)] :=
  ⟨(C4_sweep_removes_expired 6 [("a", ⟨1, 7⟩)]).1 "a" ⟨1, 7⟩ (by decide),
   (C4_sweep_removes_expired 6 [("a", ⟨1, 7⟩)]).2 "a" ⟨1, 7⟩ (by decide) (by decide)⟩

/-- C5, counterexample.  First part: capacity 3, Puts of A, B, then an
overwrite of A, then C, then D.  If the overwrite made A a fresh
insertion at the back, B would be oldest and D's insertion would evict
B, leaving A readable; in the code a `Map.set` on a present key keeps
its position, so A is still oldest and is evicted — `Get("A")` is
"not found" while `Get("B")` still succeeds.  Second part: at
capacity, an overwrite first evicts the oldest entry, so
`Put` of an already-present key shrinks `Size()` from 2 to 1. -/
theorem C5_overwrite_counterexample :
    (Get 5 (put 3 0 100 (put 3 0 100 (put 3 0 100 (put 3 0 100
        (put 3 0 100 [] "A" 1) "B" 2) "A" 3) "C" 4) "D" 5) "A").1 = none ∧
    (Get 5 (put 3 0 100 (put 3 0 100 (put 3 0 100 (put 3 0 100
        (put 3 0 100 [] "A" 1) "B" 2) "A" 3) "C" 4) "D" 5) "B").1 = some 2 ∧
    size [("A", (⟨1, 100⟩ : Entry)), ("B", ⟨2, 100⟩)] = 2 ∧
    size (put 2 0 100 [("A", ⟨1, 100⟩), ("B", ⟨2, 100⟩)] "B" 9) = 1 := by
  decide

/-- C5 (amended): a Put on an already-present key while the entry
count is strictly below capacity leaves `Size()` unchanged, updates
the entry's value and expiration, and keeps the entry at its original
position in the insertion order (the key sequence is unchanged — it is
not moved to the back); a subsequent Get returns the new value.  (At
capacity, the Put first evicts the oldest entry even on an overwrite,
which can decrease `Size()`.) -/
theorem C5_overwrite_below_capacity (cap now ttl t : Nat) (m : Cache)
    (k : String) (v : Nat) (e : Entry)
    (hpres : jsMapGet m k = some e) (hlt : size m < cap) :
    size (put cap now ttl m k v) = size m ∧
    jsKeys (put cap now ttl m k v) = jsKeys m ∧
    jsMapGet (put cap now ttl m k v) k = some ⟨v, now + ttl⟩ ∧
    (t < now + ttl → (Get t (put cap now ttl m k v) k).1 = some v) := by
  have hev : putEvict cap m = m := by
    rw [putEvict, if_neg (by simp only [size] at hlt; omega)]
  have hput : put cap now ttl m k v = jsMapSet m k ⟨v, now + ttl⟩ := by
    rw [put, hev]
  refine ⟨?_, ?_, ?_, ?_⟩
  · rw [hput]
    simp only [size]
    exact length_jsMapSet_of_present m k _ e hpres
  · rw [hput]
    exact jsKeys_set_of_present m k _ e hpres
  · rw [hput]
    exact jsMapGet_set_self m k _
  · intro ht
    have hget : jsMapGet (put cap now ttl m k v) k = some ⟨v, now + ttl⟩ :=
      jsMapGet_put_self cap now ttl m k v
    have hne : ¬ (now + ttl ≤ t) := by omega
    simp [Get, hget, hne]

/-- C5 witness: `Put("x", 1)` then `Put("x", 2)` below capacity leaves
the size and key order unchanged and `Get("x")` returns 2. -/
theorem C5_overwrite_below_capacity_witness :
    size (put 10 0 50 [("x", ⟨1, 50⟩)] "x" 2) = size [("x", (⟨1, 50⟩ : Entry))] ∧
    jsKeys (put 10 0 50 [("x", ⟨1, 50⟩)] "x" 2) = jsKeys [("x", (⟨1, 50⟩ : Entry))] ∧
    jsMapGet (put 10 0 50 [("x", ⟨1, 50⟩)] "x" 2) "x" = some ⟨2, 50⟩ ∧
    (Get 5 (put 10 0 50 [("x", ⟨1, 50⟩)] "x" 2) "x").1 = some 2 := by
  have h := C5_overwrite_below_capacity 10 0 50 5 [("x", ⟨1, 50⟩)] "x" 2 ⟨1, 50⟩
    (by decide) (by decide)
  exact ⟨h.1, h.2.1, h.2.2.1, h.2.2.2 (by decide)⟩

/-- C6: no cache operation fails.  Put stores its entry for every
input — the capacity bound is enforced by eviction, never by
rejection — and Get returns the absence indicator `none` (rather than
an error) both for a missing key and for an expired one. -/
theorem C6_no_errors (cap now ttl t : Nat) (m : Cache) (k : String) (v : Nat) :
    jsMapGet (put cap now ttl m k v) k = some ⟨v, now + ttl⟩ ∧
    (jsMapGet m k = none → Get t m k = (none, m)) ∧
    (∀ e : Entry, jsMapGet m k = some e → e.expires ≤ t →
      (Get t m k).1 = none) := by
  refine ⟨jsMapGet_put_self cap now ttl m k v, ?_, ?_⟩
  · intro h
    simp [Get, h]
  · intro e he hexp
    simp [Get, he, hexp]

/-- C6 witness: a Put into the empty cache at capacity 0 still stores
its entry; Get of a missing key and Get of an expired key both return
`none`. -/
theorem C6_no_errors_witness :
    jsMapGet (put 0 3 4 [] "k" 7) "k" = some ⟨7, 7⟩ ∧
    Get 5 [] "k" = (none, []) ∧
    (Get 9 [("k", ⟨7, 7⟩)] "k").1 = none :=
  ⟨(C6_no_errors 0 3 4 5 [] "k" 7).1,
   (C6_no_errors 0 3 4 5 [] "k" 7).2.1 (by decide),
   (C6_no_errors 0 3 4 9 [("k", ⟨7, 7⟩)] "k" 7).2.2 ⟨7, 7⟩ (by decide) (by decide)⟩

/-- C7: after `Clear()` the size is 0, every subsequent Get — for any
key and any time, whatever the prior state — returns "not found" and
leaves the cache empty (so further Gets keep returning "not found"
until a new Put). -/
theorem C7_clear_empties (m : Cache) (now : Nat) (k : String) :
    size (clear m) = 0 ∧
    Get now (clear m) k = (none, clear m) ∧
    clear m = [] := by
  refine ⟨rfl, ?_, rfl⟩
  simp [Get, clear, jsMapClear, jsMapGet]

/-- C8: frame and removal-cause analysis.  (1) An entry that is not
the Put's key and not the oldest entry of a full cache survives a Put;
(2) an entry that is not the Get's key survives a Get; (3) an entry
removed by a Get is exactly the targeted key and its expiration had
passed; (4) an entry removed by a Sweep had a strictly passed
expiration; (5) an entry removed by a Put is the overwritten key or
the oldest entry of a full cache — Put's removals never depend on
expirations, and Get's and Sweep's never depend on the capacity, so no
entry is both capacity-evicted and TTL-expired in one operation. -/
theorem C8_frame_and_removal_causes (cap now ttl t : Nat) (m : Cache)
    (k k' : String) (v : Nat) (e : Entry) :
    ((k', e) ∈ m → k' ≠ k → (size m < cap ∨ jsFirstKey m ≠ some k') →
      (k', e) ∈ put cap now ttl m k v) ∧
    ((k', e) ∈ m → k' ≠ k → (k', e) ∈ (Get t m k).2) ∧
    ((jsKeys m).Nodup → (k', e) ∈ m → (k', e) ∉ (Get t m k).2 →
      k' = k ∧ e.expires ≤ t) ∧
    ((k', e) ∈ m → (k', e) ∉ sweep t m → e.expires < t) ∧
    ((k', e) ∈ m → (k', e) ∉ put cap now ttl m k v →
      k' = k ∨ (cap ≤ size m ∧ jsFirstKey m = some k')) := by
  refine ⟨fun hm hne hs => mem_put_of_ne cap now ttl m k k' v e hm hne hs,
    ?_, ?_, ?_, ?_⟩
  · intro hm hne
    cases hget : jsMapGet m k with
    | none => simpa [Get, hget] using hm
    | some e0 =>
        by_cases hexp : e0.expires ≤ t
        · simp only [Get, hget, hexp, if_true]
          exact mem_jsMapDelete_of_ne m k k' e hm hne
        · simpa [Get, hget, hexp] using hm
  · intro hnd hm hnot
    cases hget : jsMapGet m k with
    | none =>
        simp only [Get, hget] at hnot
        exact absurd hm hnot
    | some e0 =>
        by_cases hexp : e0.expires ≤ t
        · simp only [Get, hget, hexp, if_true] at hnot
          have hk : k' = k := by
            by_contra hne
            exact hnot (mem_jsMapDelete_of_ne m k k' e hm hne)
          have h2 : jsMapGet m k = some e := hk ▸ jsMapGet_of_mem_nodup m k' e hnd hm
          rw [hget] at h2
          injection h2 with h3
          exact ⟨hk, h3 ▸ hexp⟩
        · simp only [Get, hget, hexp, if_false] at hnot
          exact absurd hm hnot
  · intro hm hnot
    by_contra hlt
    push_neg at hlt
    refine hnot ?_
    rw [sweep, List.mem_filter]
    refine ⟨hm, ?_⟩
    simp only [Bool.not_eq_eq_eq_not, Bool.not_true, decide_eq_false_iff_not]
    omega
  · intro hm hnot
    by_contra hcon
    push_neg at hcon
    obtain ⟨hne, himp⟩ := hcon
    refine hnot (mem_put_of_ne cap now ttl m k k' v e hm hne ?_)
    by_cases hc : cap ≤ size m
    · exact Or.inr (himp hc)
    · exact Or.inl (Nat.not_le.mp hc)

/-- C8 witness: with the cache `[("a", expires 10), ("b", expires
20)]` — (1) a Put of "b" below capacity keeps ("a", 10); (2) a Get of
"b" keeps ("a", 10); (3) the entry removed by `Get 25 _ "b"` is
exactly "b", expired; (4) the entry removed by `sweep 25` was
strictly expired; (5) the entry removed by a Put of "c" at capacity 2
is the oldest key "a". -/
theorem C8_frame_and_removal_causes_witness :
    ("a", (⟨1, 10⟩ : Entry)) ∈ put 5 0 0 [("a", ⟨1, 10⟩), ("b", ⟨2, 20⟩)] "b" 9 ∧
    ("a", (⟨1, 10⟩ : Entry)) ∈ (Get 0 [("a", ⟨1, 10⟩), ("b", ⟨2, 20⟩)] "b").2 ∧
    ("b" = "b" ∧ (⟨2, 20⟩ : Entry).expires ≤ 25) ∧
    (⟨2, 20⟩ : Entry).expires < 25 ∧
    ("a" = "c" ∨
      (2 ≤ size [("a", (⟨1, 10⟩ : Entry)), ("b", ⟨2, 20⟩)] ∧
        jsFirstKey [("a", (⟨1, 10⟩ : Entry)), ("b", ⟨2, 20⟩)] = some "a")) :=
  ⟨(C8_frame_and_removal_causes 5 0 0 0 [("a", ⟨1, 10⟩), ("b", ⟨2, 20⟩)]
      "b" "a" 9 ⟨1, 10⟩).1 (by decide) (by decide) (Or.inl (by decide)),
   (C8_frame_and_removal_causes 5 0 0 0 [("a", ⟨1, 10⟩), ("b", ⟨2, 20⟩)]
      "b" "a" 9 ⟨1, 10⟩).2.1 (by decide) (by decide),
   (C8_frame_and_removal_causes 5 0 0 25 [("a", ⟨1, 10⟩), ("b", ⟨2, 20⟩)]
      "b" "b" 9 ⟨2, 20⟩).2.2.1 (by decide) (by decide) (by decide),
   (C8_frame_and_removal_causes 5 0 0 25 [("a", ⟨1, 10⟩), ("b", ⟨2, 20⟩)]
      "b" "b" 9 ⟨2, 20⟩).2.2.2.1 (by decide) (by decide),
   (C8_frame_and_removal_causes 2 0 0 0 [("a", ⟨1, 10⟩), ("b", ⟨2, 20⟩)]
      "c" "a" 9 ⟨1, 10⟩).2.2.2.2 (by decide) (by decide)⟩

/-- C9: every call to `createMemoryLeak` grows `leakyCache.size` by at
most one and never shrinks it, with zero growth exactly when the
`Date.now()` key is already present; the request handler never
removes an entry (only `/leak` touches the cache at all); and the
SIGINT handler's `leakyCache.clear()` is the one operation that
removes entries, emptying the map. -/
theorem C9_leaky_cache_monotone (t : Nat) (d : LeakData) (m : LeakyCache) :
    m.length ≤ (createMemoryLeak t d m).length ∧
    (createMemoryLeak t d m).length ≤ m.length + 1 ∧
    ((createMemoryLeak t d m).length = m.length ↔ t ∈ jsKeys m) ∧
    (∀ url, m.length ≤ (leakServerHandler url t d m).length) ∧
    sigintHandler m = [] := by
  simp only [createMemoryLeak, leakServerHandler, sigintHandler, jsMapClear]
  refine ⟨length_jsMapSet_ge m t d, length_jsMapSet_le m t d, ?_, ?_, trivial⟩
  · constructor
    · intro hlen
      cases hg : jsMapGet m t with
      | none =>
          have h1 := length_jsMapSet_of_absent m t d hg
          omega
      | some w =>
          by_contra hnot
          have hnone : jsMapGet m t = none := (jsMapGet_eq_none_iff m t).mpr hnot
          rw [hg] at hnone
          exact Option.noConfusion hnone
    · intro hmem
      cases hg : jsMapGet m t with
      | none => exact absurd hmem ((jsMapGet_eq_none_iff m t).mp hg)
      | some w => exact length_jsMapSet_of_present m t d w hg
  · intro url
    by_cases hurl : url = "/leak"
    · simp only [hurl, if_pos]
      exact length_jsMapSet_ge m t d
    · simp [hurl]

/-- C10: the routed server answers `'/'`, `'/about'` and
`'/api/status'` with status 200, answers every other URL with status
404 and a JSON body whose `error` field is `'Not Found'`, and on every
path responds with a JSON content type (no request is left without a
response: the handler is a total function). -/
theorem C10_routing {υ : Type} (url ts : String) (uptime : υ) :
    ((url = "/" ∨ url = "/about" ∨ url = "/api/status") →
      (routedHandler url ts uptime).statusCode = 200) ∧
    (url ≠ "/" → url ≠ "/about" → url ≠ "/api/status" →
      (routedHandler url ts uptime).statusCode = 404 ∧
      jsMapGet (routedHandler url ts uptime).body "error" =
        some (JVal.jstr "Not Found")) ∧
    jsMapGet (routedHandler url ts uptime).headers "Content-Type" =
      some "application/json" := by
  refine ⟨?_, ?_, ?_⟩
  · rintro (h | h | h) <;> subst h <;> simp [routedHandler]
  · intro h1 h2 h3
    constructor
    · simp [routedHandler, h1, h2, h3]
    · simp [routedHandler, h1, h2, h3, jsMapGet]
  · unfold routedHandler
    split_ifs <;> simp [routedHeaders, jsMapGet]

/-- C10 witness: the three routed URLs get 200, `/nope` gets 404 with
the `Not Found` error field, and the content type is JSON. -/
theorem C10_routing_witness :
    (routedHandler "/" "ts" (0 : Nat)).statusCode = 200 ∧
    (routedHandler "/about" "ts" (0 : Nat)).statusCode = 200 ∧
    (routedHandler "/api/status" "ts" (0 : Nat)).statusCode = 200 ∧
    ((routedHandler "/nope" "ts" (0 : Nat)).statusCode = 404 ∧
      jsMapGet (routedHandler "/nope" "ts" (0 : Nat)).body "error" =
        some (JVal.jstr "Not Found")) ∧
    jsMapGet (routedHandler "/" "ts" (0 : Nat)).headers "Content-Type" =
      some "application/json" :=
  ⟨(C10_routing "/" "ts" 0).1 (Or.inl rfl),
   (C10_routing "/about" "ts" 0).1 (Or.inr (Or.inl rfl)),
   (C10_routing "/api/status" "ts" 0).1 (Or.inr (Or.inr rfl)),
   (C10_routing "/nope" "ts" 0).2.1 (by decide) (by decide) (by decide),
   (C10_routing "/" "ts" 0).2.2⟩
